import Mathlib

/-!
# Verification of the FDC railway-network normalization core

Shallow embedding of the transformation in `fetch_toscana_rail.py`:
raw geodata elements (tagged points and route relations) are normalized
into a railway-network document (stations, segments, lines).

Modeling conventions:
* Python dicts are insertion-ordered association lists; assignment
  (`dictInsert`) replaces an existing key in place or appends a fresh one,
  which is exactly Python's (3.7+) dict-order behavior.
* The point index `nodes_db` is keyed by the *integer* element id
  (`nodes_db[el['id']] = el`), while the station map `fdc_nodes` is keyed
  by the *decimal string* of the id (`fdc_nodes[str(nid)]`).  A Python
  membership test of a `str` probe in an `int`-keyed dict is always
  `False` (`"5" == 5` is `False` in Python); this is modeled by
  `pyEqIntStr`, an equality test between an int key and a str probe that
  is constantly `false`.
* The pattern `int(u) in nodes_db` / `nodes_db[int(u)]`, with `u` a
  canonical decimal string produced by `str`, is modeled by
  `intKeyedGet`: an integer key `k` equals `int(u)` exactly when
  `toString k = u`, because `int` and `str` are mutually inverse on
  canonical decimal strings (the only strings this program ever applies
  `int` to).
* The great-circle helper `haversine_km` is floating-point transcendental
  math; it is abstracted as a parameter `gc` of the pipeline, and the
  theorems hold for every such function.  `round(x, 2)` is modeled on
  exact rationals as round-half-to-even at two decimals (`round2`).
* Output floats that are integral in the source (`max_s`, dwell times)
  are modeled as integers.
-/

namespace FdC

/-- Python `x in s`: contiguous-substring containment, case-sensitive. -/
def strContains (hay needle : String) : Bool :=
  decide (needle.toList <:+: hay.toList)

/-- Python `s.replace(pat, rep)` on character lists: replace the leftmost
occurrence, continue after the inserted replacement (non-overlapping,
left to right).  The fuel argument (instantiated with the list length,
an upper bound on the number of steps) makes the recursion structural;
an empty pattern is treated as a no-op (the patterns of this program are
the nonempty literals `"Stazione di "` and `"Stazione "`). -/
def replaceChars (pat rep : List Char) : Nat → List Char → List Char
  | _, [] => []
  | 0, l => l
  | fuel + 1, c :: rest =>
      if pat ≠ [] ∧ pat.isPrefixOf (c :: rest) then
        rep ++ replaceChars pat rep fuel (List.drop pat.length (c :: rest))
      else
        c :: replaceChars pat rep fuel rest

/-- Python `s.replace(pat, rep)`. -/
def pyReplace (s pat rep : String) : String :=
  ⟨replaceChars pat.toList rep.toList s.toList.length s.toList⟩

/-- Python string comparison `u < v` on character lists: lexicographic by
code point. -/
def charsLt : List Char → List Char → Bool
  | [], [] => false
  | [], _ :: _ => true
  | _ :: _, [] => false
  | a :: as, b :: bs =>
      if a.toNat < b.toNat then true
      else if b.toNat < a.toNat then false
      else charsLt as bs

/-- Python string comparison `u < v`. -/
def pyStrLt (u v : String) : Bool :=
  charsLt u.toList v.toList

/-- A tag mapping (`el['tags']`): keys unique, insertion-ordered. -/
abbrev Tags := List (String × String)

/-- Python `tags.get(k)`. -/
def tagGet (tags : Tags) (k : String) : Option String :=
  match tags with
  | [] => none
  | kv :: rest => if kv.1 = k then some kv.2 else tagGet rest k

/-- A raw point element (`type == 'node'`): id, coordinates, tags. -/
structure RawPoint where
  id : Nat
  lat : ℚ
  lon : ℚ
  tags : Tags
deriving DecidableEq

/-- A route-relation member: `{'type': …, 'ref': …, 'role': …}`. -/
structure Member where
  type : String
  ref : Nat
  role : Option String
deriving DecidableEq

/-- A raw route element (`type == 'relation'`). -/
structure RawRelation where
  id : Nat
  tags : Tags
  members : List Member
deriving DecidableEq

/-- A raw element of the input stream. -/
inductive Element where
  | node : RawPoint → Element
  | relation : RawRelation → Element
deriving DecidableEq

/-- `el['id']` of an element. -/
def Element.elId : Element → Nat
  | .node p => p.id
  | .relation r => r.id

/-- Python dict assignment `d[k] = v` on an insertion-ordered assoc list:
replaces in place if the key exists, else appends. -/
def dictInsert {κ ν : Type} [DecidableEq κ] (k : κ) (v : ν) :
    List (κ × ν) → List (κ × ν)
  | [] => [(k, v)]
  | kv :: rest => if kv.1 = k then (k, v) :: rest else kv :: dictInsert k v rest

/-- Python dict lookup `d.get(k)` / `d[k]` (first matching key). -/
def dictGet {κ ν : Type} [DecidableEq κ] : List (κ × ν) → κ → Option ν
  | [], _ => none
  | kv :: rest, k => if kv.1 = k then some kv.2 else dictGet rest k

/-- Python equality between an `int` dict key and a `str` probe: in Python
`5 == "5"` is `False`, whatever the values, so this test is constantly
`false`. -/
def pyEqIntStr (_k : Nat) (_s : String) : Bool := false

/-- The membership test `mid in nodes_db` where `mid` is a `str` and
`nodes_db` is keyed by `int`: it scans the entries with Python equality
between an int key and a str probe, hence never succeeds. -/
def strInIntKeyed (db : List (Nat × RawPoint)) (s : String) : Bool :=
  db.any (fun kv => pyEqIntStr kv.1 s)

/-- The pattern `int(u) in nodes_db` / `nodes_db[int(u)]` for a decimal
string `u`: an integer key `k` equals `int(u)` exactly when
`toString k = u` (for the canonical decimal strings this program
produces), so the lookup compares keys via their decimal form. -/
def intKeyedGet (db : List (Nat × RawPoint)) (s : String) : Option RawPoint :=
  match db with
  | [] => none
  | kv :: rest => if toString kv.1 = s then some kv.2 else intKeyedGet rest s

/-- The element-store merge step: a batch's elements are appended in
order, skipping any id already seen (`if el['id'] not in seen_ids`),
first batch wins. -/
def addElements (acc : List Element × List Nat) (els : List Element) :
    List Element × List Nat :=
  els.foldl
    (fun a el => if el.elId ∈ a.2 then a else (a.1 ++ [el], a.2 ++ [el.elId]))
    acc

/-- `all_elements` after merging all batches. -/
def mergeBatches (batches : List (List Element)) : List Element :=
  (batches.foldl addElements ([], [])).1

/-- The point index: `nodes_db[el['id']] = el` for node elements,
in stream order. -/
def buildNodesDb (els : List Element) : List (Nat × RawPoint) :=
  els.foldl
    (fun db el =>
      match el with
      | .node p => dictInsert p.id p db
      | .relation _ => db)
    []

/-- The route list: relation elements in stream order. -/
def routeList (els : List Element) : List RawRelation :=
  els.filterMap
    (fun el =>
      match el with
      | .node _ => none
      | .relation r => some r)

/-- A normalized station record (`FDCNodeData`). -/
structure FDCNode where
  id : String
  name : String
  type : String
  latitude : ℚ
  longitude : ℚ
  platform_count : Nat
  capacity : Nat
deriving DecidableEq

/-- The interchange keyword set of the Station Classifier. -/
def interchangeKeywords : List String :=
  ["Centrale", "S.M.N.", "P.P.", "Porta", "Bologna", "Genova", "Pisa", "Firenze"]

/-- The Station Classifier `make_node`: resolve the display name
(tag `name`, else tag `ref`, else `"Stop <id>"`), remove the locale
markers (`"Stazione di "` before `"Stazione "`), classify as
`interchange` on a keyword substring hit, and derive platform count and
capacity from the type. -/
def make_node (el : RawPoint) : FDCNode :=
  let nid := toString el.id
  let name0 := (tagGet el.tags "name").getD ((tagGet el.tags "ref").getD ("Stop " ++ nid))
  let name := pyReplace (pyReplace name0 "Stazione di " "") "Stazione " ""
  let ntype :=
    if interchangeKeywords.any (fun x => strContains name x) then "interchange"
    else "station"
  { id := nid
    name := name
    type := ntype
    latitude := el.lat
    longitude := el.lon
    platform_count := if ntype = "interchange" then 10 else 2
    capacity := if ntype = "interchange" then 20 else 5 }

/-- Spec-side Station Classifier step 1: name resolution — prefer tag
`name`, fall back to tag `ref`, fall back to a placeholder embedding the
point identifier. -/
def resolveName (el : RawPoint) : String :=
  (tagGet el.tags "name").getD ((tagGet el.tags "ref").getD ("Stop " ++ toString el.id))

/-- Spec-side Station Classifier step 2: normalization — remove the
locale markers from the resolved name, the longer `"Stazione di "`
before the shorter `"Stazione "`, so the shorter one never partially
matches and leaves a stray `"di "`. -/
def normalizeName (s : String) : String :=
  pyReplace (pyReplace s "Stazione di " "") "Stazione " ""

/-- Spec-side Station Classifier step 3: the case-sensitive
interchange-keyword substring check. -/
def isInterchangeName (s : String) : Bool :=
  interchangeKeywords.any (fun x => strContains s x)

/-- The railway tag values that qualify a point as an initial station. -/
def railwayValues : List String := ["station", "halt", "stop"]

/-- The initial station map: every point tagged
`railway ∈ {station, halt, stop}`, keyed by `str(nid)`, in index order. -/
def initialStations (nodesDb : List (Nat × RawPoint)) : List (String × FDCNode) :=
  nodesDb.foldl
    (fun fdc kv =>
      match tagGet kv.2.tags "railway" with
      | some v => if v ∈ railwayValues then dictInsert (toString kv.1) (make_node kv.2) fdc else fdc
      | none => fdc)
    []

/-- The member roles that allow promotion. -/
def stopRoles : List String := ["stop", "platform", "station"]

/-- One iteration of the Line Builder's member loop: the accumulator is
the station map plus the working stop sequence.  A member of kind `node`
whose string id is a known station is appended; otherwise the source
probes the str id against the int-keyed point index (`mid in nodes_db`)
and would promote on a `name` tag or a stop-like role — a branch the
str/int key mismatch makes unreachable (a lookup that Python would
answer with a KeyError inside that branch is modeled as a no-op). -/
def stepMember (nodesDb : List (Nat × RawPoint))
    (acc : List (String × FDCNode) × List String) (m : Member) :
    List (String × FDCNode) × List String :=
  if m.type = "node" then
    if (dictGet acc.1 (toString m.ref)).isSome then (acc.1, acc.2 ++ [toString m.ref])
    else if strInIntKeyed nodesDb (toString m.ref) then
      match dictGet nodesDb m.ref with
      | some el =>
        if (tagGet el.tags "name").isSome
            || (match m.role with
                | some r => r ∈ stopRoles
                | none => false) then
          (dictInsert (toString m.ref) (make_node el) acc.1, acc.2 ++ [toString m.ref])
        else acc
      | none => acc
    else acc
  else acc

/-- The Line Builder's member walk over one route: station map and
working stop sequence (`current_stops`). -/
def walkMembers (nodesDb : List (Nat × RawPoint)) (fdc : List (String × FDCNode))
    (members : List Member) : List (String × FDCNode) × List String :=
  members.foldl (stepMember nodesDb) (fdc, [])

/-- The Line Builder's adjacent-duplicate collapse: start from the first
stop, append each later stop only if it differs from the last kept one
(`if s != unique[-1]`). -/
def collapse (l : List String) : List String :=
  match l with
  | [] => []
  | a :: rest =>
      rest.foldl (fun acc s => if s ≠ acc.getLastD a then acc ++ [s] else acc) [a]

/-- The route display name: tag `name`, else tag `ref`, else `"Linea"`. -/
def routeNameOf (rel : RawRelation) : String :=
  (tagGet rel.tags "name").getD ((tagGet rel.tags "ref").getD "Linea")

/-- The line-color classification of a route display name
(first match wins). -/
def lineColor (route_name : String) : String :=
  if strContains route_name "Frec" then "#FF0000"
  else if strContains route_name "IC" then "#FFA500"
  else "#0000FF"

/-- The segment track-type / max-speed classification of a route display
name (first match wins); the default is `("single", 140)`, and the
`Tirrenica` branch changes only the track type. -/
def segClass (route_name : String) : String × Int :=
  if strContains route_name "Frec" then ("highSpeed", 250)
  else if strContains route_name "IC" || strContains route_name "Direttissima" then
    ("double", 180)
  else if strContains route_name "Tirrenica" then ("double", 140)
  else ("single", 140)

/-- A stop entry of a line (`{"stationId": …, "minDwellTime": 3}`). -/
structure FDCStop where
  stationId : String
  minDwellTime : Nat
deriving DecidableEq

/-- A normalized line record (`FDCLineData`). -/
structure FDCLine where
  id : String
  name : String
  color : String
  stops : List FDCStop
deriving DecidableEq

/-- A track segment (`FDCEdgeData`); the source field names are `from`
and `to` (`from` is a Lean keyword). -/
structure FDCEdge where
  fromId : String
  toId : String
  distance : ℚ
  trackType : String
  maxSpeed : Int
  capacity : Nat
deriving DecidableEq

/-- An abstract great-circle distance function standing for
`haversine_km` (floating-point transcendental math, outside the exact
fragment); arguments are `lat1 lon1 lat2 lon2`, result in km. -/
abbrev GC := ℚ → ℚ → ℚ → ℚ → ℚ

/-- Python `round(x, 2)` on an exact rational: round half to even at two
decimal places. -/
def round2 (q : ℚ) : ℚ :=
  (if q * 100 - (⌊q * 100⌋ : ℚ) < 1/2 then (⌊q * 100⌋ : ℚ)
   else if 1/2 < q * 100 - (⌊q * 100⌋ : ℚ) then (⌊q * 100⌋ : ℚ) + 1
   else if ⌊q * 100⌋ % 2 = 0 then (⌊q * 100⌋ : ℚ) else (⌊q * 100⌋ : ℚ) + 1) / 100

/-- `tuple(sorted((u, v)))` on two strings: the canonical unordered pair
key, ascending lexicographically (`sorted` is stable, so equal or
already-ordered inputs keep their order). -/
def canonPair (u v : String) : String × String :=
  if pyStrLt v u then (v, u) else (u, v)

/-- The canonical key of an emitted segment. -/
def edgeKey (e : FDCEdge) : String × String :=
  canonPair e.fromId e.toId

/-- Accumulator of the segment loop: emitted edges plus the set of
canonical keys already handled (`existing_edges`). -/
structure EdgeAcc where
  edges : List FDCEdge
  seen : List (String × String)
deriving DecidableEq

/-- One iteration of the segment loop for a consecutive stop pair: skip
if the canonical key was already handled; otherwise record the key, and
if both endpoints resolve in the point index emit a segment with the
curvature-corrected (`* 1.25`), rounded, clamped distance and the
route-name classification. -/
def processPair (gc : GC) (nodesDb : List (Nat × RawPoint)) (route_name : String)
    (acc : EdgeAcc) (p : String × String) : EdgeAcc :=
  if canonPair p.1 p.2 ∈ acc.seen then acc
  else
    match intKeyedGet nodesDb p.1, intKeyedGet nodesDb p.2 with
    | some n1, some n2 =>
        { edges := acc.edges ++
            [{ fromId := p.1
               toId := p.2
               distance := max (1/2) (round2 (gc n1.lat n1.lon n2.lat n2.lon * (5/4)))
               trackType := (segClass route_name).1
               maxSpeed := (segClass route_name).2
               capacity := 10 }]
          seen := acc.seen ++ [canonPair p.1 p.2] }
    | _, _ => { acc with seen := acc.seen ++ [canonPair p.1 p.2] }

/-- The line record emitted for a route (`"L_" + rel id`, fixed dwell
time 3 per stop). -/
def lineOf (rel : RawRelation) (name : String) (unique : List String) : FDCLine :=
  { id := "L_" ++ toString rel.id
    name := name
    color := lineColor name
    stops := unique.map (fun s => { stationId := s, minDwellTime := 3 }) }

/-- The segment loop over the consecutive stop pairs of one route. -/
def emitEdges (gc : GC) (nodesDb : List (Nat × RawPoint)) (name : String)
    (unique : List String) (acc : EdgeAcc) : EdgeAcc :=
  (unique.zip unique.tail).foldl (processPair gc nodesDb name) acc

/-- The mutable state threaded through the route loop. -/
structure BuildState where
  fdc : List (String × FDCNode)
  lines : List FDCLine
  edges : List FDCEdge
  seen : List (String × String)
deriving DecidableEq

/-- The Line Builder plus Segment Synthesizer for one route: walk the
members, keep the (possibly grown) station map whatever happens next,
drop the route if no stop or fewer than two collapsed stops remain,
otherwise emit its line and its new segments. -/
def processRelation (gc : GC) (nodesDb : List (Nat × RawPoint))
    (st : BuildState) (rel : RawRelation) : BuildState :=
  if (walkMembers nodesDb st.fdc rel.members).2 = [] then
    { st with fdc := (walkMembers nodesDb st.fdc rel.members).1 }
  else if (collapse (walkMembers nodesDb st.fdc rel.members).2).length < 2 then
    { st with fdc := (walkMembers nodesDb st.fdc rel.members).1 }
  else
    { fdc := (walkMembers nodesDb st.fdc rel.members).1
      lines := st.lines ++
        [lineOf rel (routeNameOf rel) (collapse (walkMembers nodesDb st.fdc rel.members).2)]
      edges := (emitEdges gc nodesDb (routeNameOf rel)
        (collapse (walkMembers nodesDb st.fdc rel.members).2)
        { edges := st.edges, seen := st.seen }).edges
      seen := (emitEdges gc nodesDb (routeNameOf rel)
        (collapse (walkMembers nodesDb st.fdc rel.members).2)
        { edges := st.edges, seen := st.seen }).seen }

/-- The point index of a run. -/
def nodesDbOf (batches : List (List Element)) : List (Nat × RawPoint) :=
  buildNodesDb (mergeBatches batches)

/-- The final build state of a run over the given input batches. -/
def finalState (gc : GC) (batches : List (List Element)) : BuildState :=
  (routeList (mergeBatches batches)).foldl (processRelation gc (nodesDbOf batches))
    { fdc := initialStations (nodesDbOf batches)
      lines := []
      edges := []
      seen := [] }

/-- The output document (`RailwayNetworkDTO`, profile A). -/
structure NetworkDocument where
  name : String
  nodes : List FDCNode
  edges : List FDCEdge
  lines : List FDCLine
  trains : List Unit
deriving DecidableEq

/-- The whole transformation: merged element store, initial stations,
route loop, document assembly (`list(fdc_nodes.values())` is the station
map's insertion order). -/
def buildNetwork (gc : GC) (batches : List (List Element)) : NetworkDocument :=
  { name := "Toscana"
    nodes := (finalState gc batches).fdc.map (·.2)
    edges := (finalState gc batches).edges
    lines := (finalState gc batches).lines
    trains := [] }

/-! ## Verification-side predicates -/

/-- Station-map adequacy: every station key resolves in the point index
(via its decimal form) and equals its record's id field. -/
def FdcOk (db : List (Nat × RawPoint)) (fdc : List (String × FDCNode)) : Prop :=
  ∀ kv ∈ fdc, (intKeyedGet db kv.1).isSome = true ∧ kv.2.id = kv.1

/-- Shape of every emitted segment: endpoints present in the station
map, endpoint coordinates resolved from the point index, distance
curvature-corrected, rounded and clamped, classification and capacity
from the route-name rule. -/
def EdgeOk (gc : GC) (db : List (Nat × RawPoint)) (fdc : List (String × FDCNode))
    (e : FDCEdge) : Prop :=
  (∃ nd, (e.fromId, nd) ∈ fdc) ∧ (∃ nd, (e.toId, nd) ∈ fdc) ∧
  ∃ name n1 n2, intKeyedGet db e.fromId = some n1 ∧ intKeyedGet db e.toId = some n2 ∧
    e.distance = max (1/2) (round2 (gc n1.lat n1.lon n2.lat n2.lon * (5/4))) ∧
    e.trackType = (segClass name).1 ∧ e.maxSpeed = (segClass name).2 ∧ e.capacity = 10

/-- Invariant of the segment-loop accumulator: every edge well-shaped,
the seen-key list is exactly the emitted keys in order, and it has no
duplicates. -/
def AccOk (gc : GC) (db : List (Nat × RawPoint)) (fdc : List (String × FDCNode))
    (acc : EdgeAcc) : Prop :=
  (∀ e ∈ acc.edges, EdgeOk gc db fdc e) ∧
  acc.seen = acc.edges.map edgeKey ∧
  acc.seen.Nodup

/-- Invariant of the route loop: the station map never changes from
`fdc`, every line stop is a station key, and the segment accumulator is
well-formed. -/
def StateOk (gc : GC) (db : List (Nat × RawPoint)) (fdc : List (String × FDCNode))
    (st : BuildState) : Prop :=
  st.fdc = fdc ∧
  (∀ l ∈ st.lines, ∀ sp ∈ l.stops, ∃ nd, (sp.stationId, nd) ∈ fdc) ∧
  AccOk gc db fdc { edges := st.edges, seen := st.seen }

/-! ## Concrete inputs used by witnesses and counterexamples -/

/-- A trivial stand-in for the abstract great-circle function. -/
def gc0 : GC := fun _ _ _ _ => 0

/-- Station A: named, railway-tagged (already a Station). -/
def ptA : RawPoint := ⟨1, 0, 0, [("name", "Alpha"), ("railway", "station")]⟩

/-- Point B: unnamed, not railway-tagged. -/
def ptB : RawPoint := ⟨2, 0, 1, []⟩

/-- Point C: named, not railway-tagged. -/
def ptC : RawPoint := ⟨3, 0, 2, [("name", "Gamma")]⟩

/-- Station D: named, railway-tagged. -/
def ptD : RawPoint := ⟨4, 1, 1, [("name", "Delta"), ("railway", "halt")]⟩

/-- The promotion scenario route: stop A (a Station), stop B (unnamed,
role absent), stop C (named, role stop). -/
def relABC : RawRelation :=
  ⟨10, [("name", "R")],
    [⟨"node", 1, some "stop"⟩, ⟨"node", 2, none⟩, ⟨"node", 3, some "stop"⟩]⟩

/-- One batch holding the promotion scenario. -/
def demoBatches : List (List Element) :=
  [[.node ptA, .node ptB, .node ptC, .relation relABC]]

/-- A high-speed route over stations 1 and 4. -/
def relAD : RawRelation :=
  ⟨11, [("name", "Frecciarossa 100")],
    [⟨"node", 1, some "stop"⟩, ⟨"node", 4, some "stop"⟩]⟩

/-- A regional route over the same pair, built after the first. -/
def relAD2 : RawRelation :=
  ⟨12, [("name", "Regionale")],
    [⟨"node", 4, some "stop"⟩, ⟨"node", 1, some "stop"⟩]⟩

/-- One batch with two routes over the same station pair. -/
def edgeBatches : List (List Element) :=
  [[.node ptA, .node ptD, .relation relAD, .relation relAD2]]

/-- A route named `Direttissima` over stations 1 and 4. -/
def dirRel : RawRelation :=
  ⟨20, [("name", "Direttissima")],
    [⟨"node", 1, some "stop"⟩, ⟨"node", 4, some "stop"⟩]⟩

/-- One batch holding the `Direttissima` route. -/
def dirBatches : List (List Element) :=
  [[.node ptA, .node ptD, .relation dirRel]]

/-- A one-stop route (degenerates after the walk). -/
def relSingle : RawRelation :=
  ⟨30, [("name", "Corta")], [⟨"node", 1, some "stop"⟩]⟩

/-- A build state with one known station, for step-level witnesses. -/
def stDemo : BuildState :=
  ⟨[("1", make_node ptA)], [], [], []⟩

/-- A segment-loop accumulator that has already handled the key
`("1", "4")`. -/
def accDemo : EdgeAcc :=
  ⟨[], [("1", "4")]⟩

/-- A default line used to pick concrete elements out of outputs. -/
def lineDefault : FDCLine := ⟨"", "", "", []⟩

/-- A default stop used to pick concrete elements out of outputs. -/
def stopDefault : FDCStop := ⟨"", 0⟩

/-- A default edge used to pick concrete elements out of outputs. -/
def edgeDefault : FDCEdge := ⟨"", "", 0, "", 0, 0⟩

/-- The single segment produced by the two-route input. -/
def edgeDemo : FDCEdge := ((buildNetwork gc0 edgeBatches).edges).getD 0 edgeDefault

/-- The first line produced by the two-route input. -/
def lineDemo : FDCLine := ((finalState gc0 edgeBatches).lines).getD 0 lineDefault

/-- The first stop of that line. -/
def stopDemo : FDCStop := lineDemo.stops.getD 0 stopDefault

/-! ## Basic lemmas about the embedded primitives -/

theorem make_node_id (el : RawPoint) : (make_node el).id = toString el.id := rfl

theorem strInIntKeyed_false (db : List (Nat × RawPoint)) (s : String) :
    strInIntKeyed db s = false := by
  simp [strInIntKeyed, pyEqIntStr]

theorem dictGet_mem {κ ν : Type} [DecidableEq κ] (d : List (κ × ν)) (k : κ) (v : ν)
    (h : dictGet d k = some v) : (k, v) ∈ d := by
  induction d with
  | nil => simp [dictGet] at h
  | cons kv rest ih =>
    by_cases hk : kv.1 = k
    · rw [dictGet, if_pos hk] at h
      have hv : kv.2 = v := Option.some.inj h
      have : (k, v) = kv := by rw [← hk, ← hv]
      rw [this]
      exact List.mem_cons_self _ _
    · rw [dictGet, if_neg hk] at h
      exact List.mem_cons_of_mem _ (ih h)

theorem dictGet_isSome {κ ν : Type} [DecidableEq κ] (d : List (κ × ν)) (k : κ)
    (h : (dictGet d k).isSome = true) : ∃ v, (k, v) ∈ d := by
  obtain ⟨v, hv⟩ := Option.isSome_iff_exists.1 h
  exact ⟨v, dictGet_mem d k v hv⟩

theorem mem_dictInsert {κ ν : Type} [DecidableEq κ] (k : κ) (v : ν) (d : List (κ × ν))
    (kv : κ × ν) (h : kv ∈ dictInsert k v d) : kv = (k, v) ∨ kv ∈ d := by
  induction d with
  | nil =>
    rw [dictInsert] at h
    exact Or.inl (by simpa using h)
  | cons hd rest ih =>
    rw [dictInsert] at h
    by_cases hk : hd.1 = k
    · rw [if_pos hk] at h
      rcases List.mem_cons.1 h with h1 | h1
      · exact Or.inl h1
      · exact Or.inr (List.mem_cons_of_mem _ h1)
    · rw [if_neg hk] at h
      rcases List.mem_cons.1 h with h1 | h1
      · rw [h1]
        exact Or.inr (List.mem_cons_self _ _)
      · rcases ih h1 with h2 | h2
        · exact Or.inl h2
        · exact Or.inr (List.mem_cons_of_mem _ h2)

theorem intKeyedGet_isSome_of_mem (db : List (Nat × RawPoint)) (n : Nat) (p : RawPoint)
    (h : (n, p) ∈ db) : (intKeyedGet db (toString n)).isSome = true := by
  induction db with
  | nil => simp at h
  | cons kv rest ih =>
    rcases List.mem_cons.1 h with h1 | h1
    · rw [intKeyedGet, ← h1, if_pos rfl]
      rfl
    · rw [intKeyedGet]
      by_cases ht : toString kv.1 = toString n
      · rw [if_pos ht]; rfl
      · rw [if_neg ht]; exact ih h1

/-! ## The member walk -/

theorem stepMember_cases (db : List (Nat × RawPoint))
    (acc : List (String × FDCNode) × List String) (m : Member) :
    stepMember db acc m = acc ∨
    (stepMember db acc m = (acc.1, acc.2 ++ [toString m.ref]) ∧
      (dictGet acc.1 (toString m.ref)).isSome = true) := by
  by_cases h1 : m.type = "node"
  · by_cases h2 : (dictGet acc.1 (toString m.ref)).isSome = true
    · right
      refine ⟨?_, h2⟩
      rw [stepMember, if_pos h1, if_pos h2]
    · left
      rw [stepMember, if_pos h1, if_neg h2, strInIntKeyed_false]
      simp
  · left
    rw [stepMember, if_neg h1]

theorem stepMember_fst (db : List (Nat × RawPoint))
    (acc : List (String × FDCNode) × List String) (m : Member) :
    (stepMember db acc m).1 = acc.1 := by
  rcases stepMember_cases db acc m with h | ⟨h, _⟩ <;> rw [h]

theorem walkFold_fst (db : List (Nat × RawPoint)) (members : List Member) :
    ∀ acc : List (String × FDCNode) × List String,
      (members.foldl (stepMember db) acc).1 = acc.1 := by
  induction members with
  | nil => intro acc; rfl
  | cons m ms ih =>
    intro acc
    rw [List.foldl_cons, ih (stepMember db acc m), stepMember_fst]

theorem walkFold_stops (db : List (Nat × RawPoint)) (members : List Member) :
    ∀ acc : List (String × FDCNode) × List String,
      ∀ s ∈ (members.foldl (stepMember db) acc).2,
        s ∈ acc.2 ∨ (dictGet acc.1 s).isSome = true := by
  induction members with
  | nil => intro acc s hs; exact Or.inl hs
  | cons m ms ih =>
    intro acc s hs
    rw [List.foldl_cons] at hs
    rcases ih (stepMember db acc m) s hs with h | h
    · rcases stepMember_cases db acc m with hc | ⟨hc, hsome⟩
      · rw [hc] at h
        exact Or.inl h
      · rw [hc] at h
        rcases List.mem_append.1 h with h2 | h2
        · exact Or.inl h2
        · right
          have hs' : s = toString m.ref := by simpa using h2
          rw [hs']
          exact hsome
    · right
      rw [stepMember_fst] at h
      exact h

theorem walkMembers_fdc (db : List (Nat × RawPoint)) (fdc : List (String × FDCNode))
    (members : List Member) : (walkMembers db fdc members).1 = fdc :=
  walkFold_fst db members (fdc, [])

theorem walkMembers_mem (db : List (Nat × RawPoint)) (fdc : List (String × FDCNode))
    (members : List Member) :
    ∀ s ∈ (walkMembers db fdc members).2, (dictGet fdc s).isSome = true := by
  intro s hs
  rcases walkFold_stops db members (fdc, []) s hs with h | h
  · simp at h
  · exact h

/-! ## The adjacent-duplicate collapse -/

theorem collapse_go (d : String) (rest : List String) :
    ∀ (ys : List String) (y : String),
      rest.foldl (fun acc s => if s ≠ acc.getLastD d then acc ++ [s] else acc) (ys ++ [y])
        = ys ++ List.destutter' (· ≠ ·) y rest := by
  induction rest with
  | nil =>
    intro ys y
    simp [List.destutter'_nil]
  | cons b rest ih =>
    intro ys y
    simp only [List.foldl_cons, List.getLastD_concat]
    by_cases h : b = y
    · subst h
      rw [if_neg (by simp), List.destutter'_cons, if_neg (by simp)]
      exact ih ys b
    · rw [if_pos h, List.destutter'_cons, if_pos (Ne.symm h)]
      have := ih (ys ++ [y]) b
      rw [this]
      simp

theorem collapse_eq_destutter (l : List String) :
    collapse l = l.destutter (· ≠ ·) := by
  cases l with
  | nil => rfl
  | cons a rest =>
    have h := collapse_go a rest [] a
    simpa [collapse, List.destutter_cons'] using h

theorem collapse_chain (l : List String) : (collapse l).Chain' (· ≠ ·) := by
  rw [collapse_eq_destutter]
  exact List.destutter_is_chain' _ _

theorem collapse_sublist (l : List String) : List.Sublist (collapse l) l := by
  rw [collapse_eq_destutter]
  exact List.destutter_sublist _ _

theorem mem_of_mem_collapse (l : List String) (s : String) (h : s ∈ collapse l) : s ∈ l :=
  (collapse_sublist l).mem h

theorem collapse_eq_self (l : List String) (h : l.Chain' (· ≠ ·)) : collapse l = l := by
  rw [collapse_eq_destutter]
  exact (List.destutter_eq_self_iff _ _).2 h

/-! ## The segment loop invariant -/

theorem processPair_skip (gc : GC) (db : List (Nat × RawPoint)) (name : String)
    (acc : EdgeAcc) (p : String × String) (h : canonPair p.1 p.2 ∈ acc.seen) :
    processPair gc db name acc p = acc := by
  rw [processPair, if_pos h]

theorem processPair_ok (gc : GC) (db : List (Nat × RawPoint)) (name : String)
    (fdc : List (String × FDCNode)) (acc : EdgeAcc) (p : String × String)
    (hfdc : FdcOk db fdc)
    (hp1 : ∃ nd, (p.1, nd) ∈ fdc) (hp2 : ∃ nd, (p.2, nd) ∈ fdc)
    (hacc : AccOk gc db fdc acc) :
    AccOk gc db fdc (processPair gc db name acc p) := by
  obtain ⟨nd1, hm1⟩ := hp1
  obtain ⟨nd2, hm2⟩ := hp2
  have s1 : (intKeyedGet db p.1).isSome = true := (hfdc _ hm1).1
  have s2 : (intKeyedGet db p.2).isSome = true := (hfdc _ hm2).1
  obtain ⟨n1, e1⟩ := Option.isSome_iff_exists.1 s1
  obtain ⟨n2, e2⟩ := Option.isSome_iff_exists.1 s2
  by_cases hk : canonPair p.1 p.2 ∈ acc.seen
  · rw [processPair, if_pos hk]
    exact hacc
  · rw [processPair, if_neg hk, e1, e2]
    obtain ⟨hedges, hseen, hnds⟩ := hacc
    refine ⟨?_, ?_, ?_⟩
    · intro e he
      rcases List.mem_append.1 he with h1 | h1
      · exact hedges e h1
      · have he' : e = ⟨p.1, p.2,
            max (1/2) (round2 (gc n1.lat n1.lon n2.lat n2.lon * (5/4))),
            (segClass name).1, (segClass name).2, 10⟩ := by simpa using h1
        rw [he']
        exact ⟨⟨nd1, hm1⟩, ⟨nd2, hm2⟩, name, n1, n2, e1, e2, rfl, rfl, rfl, rfl⟩
    · rw [List.map_append, ← hseen]
      rfl
    · simp [List.nodup_append, hnds, hk]

theorem foldPairs_ok (gc : GC) (db : List (Nat × RawPoint)) (name : String)
    (fdc : List (String × FDCNode)) (pairs : List (String × String)) :
    ∀ acc : EdgeAcc,
      FdcOk db fdc →
      (∀ p ∈ pairs, (∃ nd, (p.1, nd) ∈ fdc) ∧ (∃ nd, (p.2, nd) ∈ fdc)) →
      AccOk gc db fdc acc →
      AccOk gc db fdc (pairs.foldl (processPair gc db name) acc) := by
  induction pairs with
  | nil => intro acc _ _ h; exact h
  | cons p ps ih =>
    intro acc hfdc hps hacc
    rw [List.foldl_cons]
    refine ih _ hfdc (fun q hq => hps q (List.mem_cons_of_mem _ hq)) ?_
    exact processPair_ok gc db name fdc acc p hfdc
      (hps p (List.mem_cons_self _ _)).1 (hps p (List.mem_cons_self _ _)).2 hacc

/-! ## The route loop invariant -/

theorem processRelation_ok (gc : GC) (db : List (Nat × RawPoint))
    (fdc : List (String × FDCNode)) (st : BuildState) (rel : RawRelation)
    (hfdc : FdcOk db fdc) (h : StateOk gc db fdc st) :
    StateOk gc db fdc (processRelation gc db st rel) := by
  obtain ⟨hfd, hlines, hacc⟩ := h
  have hw1 : (walkMembers db st.fdc rel.members).1 = st.fdc :=
    walkMembers_fdc db st.fdc rel.members
  have hstops : ∀ s ∈ (walkMembers db st.fdc rel.members).2, ∃ nd, (s, nd) ∈ fdc := by
    intro s hs
    have hsome := walkMembers_mem db st.fdc rel.members s hs
    rw [hfd] at hsome
    exact dictGet_isSome fdc s hsome
  rw [processRelation]
  by_cases h0 : (walkMembers db st.fdc rel.members).2 = []
  · rw [if_pos h0]
    exact ⟨hw1.trans hfd, hlines, hacc⟩
  · rw [if_neg h0]
    by_cases h2 : (collapse (walkMembers db st.fdc rel.members).2).length < 2
    · rw [if_pos h2]
      exact ⟨hw1.trans hfd, hlines, hacc⟩
    · rw [if_neg h2]
      have hpairs : ∀ p ∈ (collapse (walkMembers db st.fdc rel.members).2).zip
          (collapse (walkMembers db st.fdc rel.members).2).tail,
          (∃ nd, (p.1, nd) ∈ fdc) ∧ (∃ nd, (p.2, nd) ∈ fdc) := by
        intro p hp
        have hz := List.of_mem_zip hp
        exact ⟨hstops p.1 (mem_of_mem_collapse _ _ hz.1),
          hstops p.2 (mem_of_mem_collapse _ _ (List.mem_of_mem_tail hz.2))⟩
      refine ⟨hw1.trans hfd, ?_, ?_⟩
      · intro l hl sp hsp
        rcases List.mem_append.1 hl with h3 | h3
        · exact hlines l h3 sp hsp
        · have hl' : l = lineOf rel (routeNameOf rel)
              (collapse (walkMembers db st.fdc rel.members).2) := by simpa using h3
          rw [hl'] at hsp
          obtain ⟨s, hsu, hsp'⟩ := List.mem_map.1 hsp
          have : sp.stationId = s := by rw [← hsp']
          rw [this]
          exact hstops s (mem_of_mem_collapse _ s hsu)
      · exact foldPairs_ok gc db (routeNameOf rel) fdc _
          { edges := st.edges, seen := st.seen } hfdc hpairs hacc

theorem foldRelations_ok (gc : GC) (db : List (Nat × RawPoint))
    (fdc : List (String × FDCNode)) (rels : List RawRelation) :
    ∀ st : BuildState, FdcOk db fdc → StateOk gc db fdc st →
      StateOk gc db fdc (rels.foldl (processRelation gc db) st) := by
  induction rels with
  | nil => intro st _ h; exact h
  | cons r rs ih =>
    intro st hfdc h
    rw [List.foldl_cons]
    exact ih _ hfdc (processRelation_ok gc db fdc st r hfdc h)

/-! ## Adequacy of the initial station map and point index -/

theorem buildNodesDb_go (els : List Element) :
    ∀ db : List (Nat × RawPoint), (∀ kv ∈ db, kv.2.id = kv.1) →
      ∀ kv ∈ els.foldl (fun db el =>
          match el with
          | .node p => dictInsert p.id p db
          | .relation _ => db) db, kv.2.id = kv.1 := by
  induction els with
  | nil => intro db h kv hkv; exact h kv hkv
  | cons el rest ih =>
    intro db h kv hkv
    rw [List.foldl_cons] at hkv
    refine ih _ ?_ kv hkv
    intro kv' hkv'
    cases el with
    | relation r => exact h kv' hkv'
    | node p =>
      rcases mem_dictInsert _ _ _ _ hkv' with h1 | h1
      · rw [h1]
      · exact h kv' h1

theorem buildNodesDb_id (els : List Element) : ∀ kv ∈ buildNodesDb els, kv.2.id = kv.1 :=
  buildNodesDb_go els [] (fun kv h => absurd h (List.not_mem_nil kv))

theorem initialStations_go (db : List (Nat × RawPoint)) (hdb : ∀ kv ∈ db, kv.2.id = kv.1)
    (l : List (Nat × RawPoint)) :
    ∀ fdc0 : List (String × FDCNode),
      (∀ kv ∈ l, kv ∈ db) → FdcOk db fdc0 →
      FdcOk db (l.foldl (fun fdc kv =>
        match tagGet kv.2.tags "railway" with
        | some v => if v ∈ railwayValues then dictInsert (toString kv.1) (make_node kv.2) fdc
            else fdc
        | none => fdc) fdc0) := by
  induction l with
  | nil => intro fdc0 _ h; exact h
  | cons kv rest ih =>
    intro fdc0 hsub h
    rw [List.foldl_cons]
    refine ih _ (fun x hx => hsub x (List.mem_cons_of_mem _ hx)) ?_
    rcases ht : tagGet kv.2.tags "railway" with _ | v
    · exact h
    · show FdcOk db
        (if v ∈ railwayValues then dictInsert (toString kv.1) (make_node kv.2) fdc0 else fdc0)
      by_cases hv : v ∈ railwayValues
      · rw [if_pos hv]
        intro kv' hkv'
        rcases mem_dictInsert _ _ _ _ hkv' with h1 | h1
        · rw [h1]
          refine ⟨?_, ?_⟩
          · exact intKeyedGet_isSome_of_mem db kv.1 kv.2 (hsub kv (List.mem_cons_self _ _))
          · show (make_node kv.2).id = toString kv.1
            rw [make_node_id, hdb kv (hsub kv (List.mem_cons_self _ _))]
        · exact h _ h1
      · rw [if_neg hv]
        exact h

theorem initialStations_ok (db : List (Nat × RawPoint))
    (hdb : ∀ kv ∈ db, kv.2.id = kv.1) : FdcOk db (initialStations db) :=
  initialStations_go db hdb db [] (fun _ hx => hx)
    (fun kv h => absurd h (List.not_mem_nil kv))

/-- The master invariant of a whole run: the point index is id-keyed,
the initial station map is adequate, and the final state satisfies the
route-loop invariant relative to them. -/
theorem finalState_ok (gc : GC) (batches : List (List Element)) :
    FdcOk (nodesDbOf batches) (initialStations (nodesDbOf batches)) ∧
    StateOk gc (nodesDbOf batches) (initialStations (nodesDbOf batches))
      (finalState gc batches) := by
  have hfdc : FdcOk (nodesDbOf batches) (initialStations (nodesDbOf batches)) :=
    initialStations_ok _ (buildNodesDb_id _)
  refine ⟨hfdc, ?_⟩
  refine foldRelations_ok gc (nodesDbOf batches) _ _ _ hfdc ?_
  exact ⟨rfl, fun l hl => absurd hl (List.not_mem_nil l),
    fun e he => absurd he (List.not_mem_nil e), rfl, List.nodup_nil⟩

/-! ## Claims -/

/-- C1: the Line Builder is claimed to promote a route member whose id
is in the point index but not yet a Station exactly when it has a `name`
tag or a stop-like role.  The code never promotes: the membership probe
compares the member's *string* id against the point index's *integer*
keys, which in Python is always false, so the promotion branch is dead.
On the spec's own scenario (stop A already a Station, B unnamed, C
named) the route degenerates to the single stop A and is discarded: no
line is built and C is never promoted. -/
theorem C1_promotion_never_fires :
    (∀ (db : List (Nat × RawPoint)) (s : String), strInIntKeyed db s = false) ∧
    (buildNetwork gc0 demoBatches).lines = [] ∧
    (buildNetwork gc0 demoBatches).nodes.map (·.id) = ["1"] :=
  ⟨fun db s => strInIntKeyed_false db s, by decide, by decide⟩

/-- C2: at most one Segment per canonical unordered station pair across
the whole document: the emitted key list is duplicate-free, a pair whose
canonical key was already handled produces nothing (so the first
traversing line fixes the classification), and on the concrete
two-route input (high-speed first, regional second over the same pair)
exactly one high-speed segment survives. -/
theorem C2_unique_segments :
    (∀ (gc : GC) (batches : List (List Element)),
      ((finalState gc batches).edges.map edgeKey).Nodup) ∧
    (∀ (gc : GC) (db : List (Nat × RawPoint)) (name : String) (acc : EdgeAcc)
      (p : String × String), canonPair p.1 p.2 ∈ acc.seen →
        processPair gc db name acc p = acc) ∧
    (buildNetwork gc0 edgeBatches).edges.map (·.trackType) = ["highSpeed"] ∧
    (buildNetwork gc0 edgeBatches).lines.map (·.color) = ["#FF0000", "#0000FF"] := by
  refine ⟨?_, ?_, by decide, by decide⟩
  · intro gc batches
    have hseen : (finalState gc batches).seen =
        ((finalState gc batches).edges).map edgeKey :=
      (finalState_ok gc batches).2.2.2.2.1
    have hnds : (finalState gc batches).seen.Nodup :=
      (finalState_ok gc batches).2.2.2.2.2
    rw [hseen] at hnds
    exact hnds
  · intro gc db name acc p h
    exact processPair_skip gc db name acc p h

/-- C2 witness: the duplicate-freeness at a concrete input, and the
skip branch taken on an accumulator that already saw the key. -/
theorem C2_unique_segments_witness :
    ((finalState gc0 edgeBatches).edges.map edgeKey).Nodup ∧
    processPair gc0 [] "L" accDemo ("1", "4") = accDemo :=
  ⟨C2_unique_segments.1 gc0 edgeBatches,
    C2_unique_segments.2.1 gc0 [] "L" accDemo ("1", "4") (by decide)⟩

/-- C3 counterexample: the claim says a segment is intercity-classified
exactly when its first-traversing line is.  A route named `Direttissima`
refutes it: the line is classified regional (default blue color, no
`IC` match) while its segment gets the intercity track type `double`
and max speed 180, because the segment rule also matches
`Direttissima`. -/
theorem C3_counterexample :
    (buildNetwork gc0 dirBatches).lines.map (·.color) = ["#0000FF"] ∧
    (buildNetwork gc0 dirBatches).edges.map (·.trackType) = ["double"] ∧
    (buildNetwork gc0 dirBatches).edges.map (·.maxSpeed) = [180] ∧
    lineColor "Direttissima" = "#0000FF" ∧
    segClass "Direttissima" = ("double", 180) := by
  refine ⟨by decide, by decide, by decide, by decide, by decide⟩

/-- C3 (amended): segment track type and max speed come from a
substring classification of the same route display name that colors the
line; the high-speed class corresponds exactly (segment `highSpeed` iff
line color red), and an intercity-colored line always yields
`("double", 180)`; but the segment rule has a larger keyword set:
without `Frec`/`IC` the line is regional (blue) while `Direttissima`
still yields `("double", 180)`, `Tirrenica` yields `("double", 140)`,
and only otherwise the default `("single", 140)`. -/
theorem C3_classification (name : String) :
    ((segClass name).1 = "highSpeed" ↔ lineColor name = "#FF0000") ∧
    (lineColor name = "#FFA500" → segClass name = ("double", 180)) ∧
    (strContains name "Frec" = false → strContains name "IC" = false →
      lineColor name = "#0000FF" ∧
      (strContains name "Direttissima" = true → segClass name = ("double", 180)) ∧
      (strContains name "Direttissima" = false → strContains name "Tirrenica" = true →
        segClass name = ("double", 140)) ∧
      (strContains name "Direttissima" = false → strContains name "Tirrenica" = false →
        segClass name = ("single", 140))) := by
  cases hF : strContains name "Frec" <;>
    cases hI : strContains name "IC" <;>
      cases hD : strContains name "Direttissima" <;>
        cases hT : strContains name "Tirrenica" <;>
          simp [segClass, lineColor, hF, hI, hD, hT]

/-- C3 witness: the amended classification evaluated on the route names
the extra keywords make interesting. -/
theorem C3_classification_witness :
    segClass "Direttissima" = ("double", 180) ∧
    segClass "Tirrenica" = ("double", 140) ∧
    lineColor "Tirrenica" = "#0000FF" :=
  ⟨((C3_classification "Direttissima").2.2 (by decide) (by decide)).2.1 (by decide),
    ((C3_classification "Tirrenica").2.2 (by decide) (by decide)).2.2.1 (by decide) (by decide),
    ((C3_classification "Tirrenica").2.2 (by decide) (by decide)).1⟩

/-- C4: the duplicate collapse removes exactly the adjacent duplicates:
`[A, A, B, B, C]` becomes `[A, B, C]`, the non-adjacent repeat in
`[A, B, A]` survives, and in general the result has no two adjacent
equal entries, is a sublist of the input (order preserved), and is the
input itself whenever the input already has no adjacent duplicates. -/
theorem C4_adjacent_collapse :
    (∀ a b c : String, a ≠ b → b ≠ c → collapse [a, a, b, b, c] = [a, b, c]) ∧
    (∀ a b : String, a ≠ b → collapse [a, b, a] = [a, b, a]) ∧
    (∀ l : List String, (collapse l).Chain' (· ≠ ·) ∧ List.Sublist (collapse l) l ∧
      (l.Chain' (· ≠ ·) → collapse l = l)) := by
  refine ⟨?_, ?_, fun l => ⟨collapse_chain l, collapse_sublist l, collapse_eq_self l⟩⟩
  · intro a b c hab hbc
    rw [collapse_eq_destutter]
    simp [List.destutter_cons', List.destutter'_cons, List.destutter'_nil, hab, hbc]
  · intro a b hab
    apply collapse_eq_self
    simp [List.chain'_cons, hab, Ne.symm hab]

/-- C4 witness: the two collapse scenarios on concrete stop ids. -/
theorem C4_adjacent_collapse_witness :
    collapse ["a", "a", "b", "b", "c"] = ["a", "b", "c"] ∧
    collapse ["a", "b", "a"] = ["a", "b", "a"] :=
  ⟨C4_adjacent_collapse.1 "a" "b" "c" (by decide) (by decide),
    C4_adjacent_collapse.2.1 "a" "b" (by decide)⟩

/-- C5: a route whose collapsed stop sequence has fewer than two stops
is discarded entirely — the state keeps its lines, segments and seen
keys (only the station map update survives, as in the source) — and the
run still always produces a document (the assembler is total: name and
empty train list are always present). -/
theorem C5_degenerate_discard :
    (∀ (gc : GC) (db : List (Nat × RawPoint)) (st : BuildState) (rel : RawRelation),
      (collapse (walkMembers db st.fdc rel.members).2).length < 2 →
      processRelation gc db st rel =
        { st with fdc := (walkMembers db st.fdc rel.members).1 }) ∧
    (∀ (gc : GC) (batches : List (List Element)),
      (buildNetwork gc batches).name = "Toscana" ∧ (buildNetwork gc batches).trains = []) := by
  refine ⟨?_, fun gc batches => ⟨rfl, rfl⟩⟩
  intro gc db st rel h
  rw [processRelation]
  by_cases h0 : (walkMembers db st.fdc rel.members).2 = []
  · rw [if_pos h0]
  · rw [if_neg h0, if_pos h]

/-- C5 witness: a one-stop route is discarded at a concrete state. -/
theorem C5_degenerate_discard_witness :
    processRelation gc0 [] stDemo relSingle =
      { stDemo with fdc := (walkMembers [] stDemo.fdc relSingle.members).1 } :=
  C5_degenerate_discard.1 gc0 [] stDemo relSingle (by decide)

/-- C6: every emitted segment's distance is the abstract great-circle
distance of its resolved endpoints times the fixed correction factor
5/4 > 1, rounded to two decimals and clamped from below at the floor
1/2; in particular every segment distance is at least 1/2. -/
theorem C6_distance_floor :
    ∀ (gc : GC) (batches : List (List Element)),
      ∀ e ∈ (buildNetwork gc batches).edges,
        (∃ n1 n2, intKeyedGet (nodesDbOf batches) e.fromId = some n1 ∧
          intKeyedGet (nodesDbOf batches) e.toId = some n2 ∧
          e.distance = max (1/2) (round2 (gc n1.lat n1.lon n2.lat n2.lon * (5/4)))) ∧
        (1/2 : ℚ) ≤ e.distance := by
  intro gc batches e he
  have hedges : ∀ x ∈ (finalState gc batches).edges,
      EdgeOk gc (nodesDbOf batches) (initialStations (nodesDbOf batches)) x :=
    (finalState_ok gc batches).2.2.2.1
  obtain ⟨_, _, name, n1, n2, e1, e2, hdist, _, _, _⟩ := hedges e he
  refine ⟨⟨n1, n2, e1, e2, hdist⟩, ?_⟩
  rw [hdist]
  exact le_max_left _ _

/-- C6 witness: the one segment of the two-route input sits in the edge
list and respects the floor. -/
theorem C6_distance_floor_witness :
    edgeDemo ∈ (buildNetwork gc0 edgeBatches).edges ∧
    (1/2 : ℚ) ≤ edgeDemo.distance := by
  have hlist : (buildNetwork gc0 edgeBatches).edges = [edgeDemo] := rfl
  have hm : edgeDemo ∈ (buildNetwork gc0 edgeBatches).edges := by
    rw [hlist]
    exact List.mem_singleton_self _
  exact ⟨hm, (C6_distance_floor gc0 edgeBatches edgeDemo hm).2⟩

/-- C7: the Station Classifier resolves the display name (tag `name`,
else tag `ref`, else a placeholder embedding the id), removes the
locale markers with the longer `"Stazione di "` applied before the
shorter `"Stazione "` (so `"Stazione di Pisa"` becomes `"Pisa"`, not
`"di Pisa"`), and only then runs the case-sensitive interchange-keyword
substring check on the normalized name (witnessed by a name that gains
the keyword only after normalization). -/
theorem C7_classifier_normalization (el : RawPoint) :
    (make_node el).name = normalizeName (resolveName el) ∧
    ((make_node el).type = "interchange" ↔
      isInterchangeName (normalizeName (resolveName el)) = true) ∧
    normalizeName "Stazione di Pisa" = "Pisa" ∧
    (make_node ⟨7, 0, 0, [("name", "PiStazione di sa")]⟩).type = "interchange" := by
  have htype : (make_node el).type =
      if isInterchangeName (normalizeName (resolveName el)) = true then "interchange"
      else "station" := rfl
  refine ⟨rfl, ?_, by decide, by decide⟩
  rw [htype]
  cases h : isInterchangeName (normalizeName (resolveName el)) <;> simp [h]

/-- C8: the transformation is a pure function of the ordered input
batches — two runs on equal inputs produce identical documents,
including the station, segment and line orderings (all derived from
insertion-ordered structures). -/
theorem C8_deterministic (gc : GC) (b1 b2 : List (List Element)) (h : b1 = b2) :
    buildNetwork gc b1 = buildNetwork gc b2 := by
  rw [h]

/-- C8 witness: re-running on the unchanged demo input reproduces the
document. -/
theorem C8_deterministic_witness :
    buildNetwork gc0 demoBatches = buildNetwork gc0 demoBatches :=
  C8_deterministic gc0 demoBatches demoBatches rfl

/-- C9: the missing-endpoint skip branch of the Segment Synthesizer is
unreachable: the seen-key list equals, in order, the canonical keys of
the emitted segments (the skip branch would add a key without a
segment), and every stop of every built line resolves in the point
index. -/
theorem C9_skip_unreachable :
    ∀ (gc : GC) (batches : List (List Element)),
      (finalState gc batches).seen = ((finalState gc batches).edges).map edgeKey ∧
      (∀ l ∈ (finalState gc batches).lines, ∀ sp ∈ l.stops,
        (intKeyedGet (nodesDbOf batches) sp.stationId).isSome = true) := by
  intro gc batches
  obtain ⟨hfdc, hfd, hlines, he, hseen, hnds⟩ := finalState_ok gc batches
  refine ⟨hseen, ?_⟩
  intro l hl sp hsp
  obtain ⟨nd, hmem⟩ := hlines l hl sp hsp
  exact (hfdc _ hmem).1

/-- C9 witness: at the two-route input, the seen keys match the emitted
keys and the first stop of the first line resolves. -/
theorem C9_skip_unreachable_witness :
    (finalState gc0 edgeBatches).seen = ((finalState gc0 edgeBatches).edges).map edgeKey ∧
    (intKeyedGet (nodesDbOf edgeBatches) stopDemo.stationId).isSome = true :=
  ⟨(C9_skip_unreachable gc0 edgeBatches).1,
    (C9_skip_unreachable gc0 edgeBatches).2 lineDemo (by decide) stopDemo (by decide)⟩

/-- C10: the output document is referentially closed — both endpoint
ids of every segment and the station id of every line stop occur as the
id of some station in the output station list. -/
theorem C10_referential_closure :
    ∀ (gc : GC) (batches : List (List Element)),
      (∀ e ∈ (buildNetwork gc batches).edges,
        (∃ nd ∈ (buildNetwork gc batches).nodes, nd.id = e.fromId) ∧
        (∃ nd ∈ (buildNetwork gc batches).nodes, nd.id = e.toId)) ∧
      (∀ l ∈ (buildNetwork gc batches).lines, ∀ sp ∈ l.stops,
        ∃ nd ∈ (buildNetwork gc batches).nodes, nd.id = sp.stationId) := by
  intro gc batches
  obtain ⟨hfdc, hfd, hlines, he, hseen, hnds⟩ := finalState_ok gc batches
  have tostn : ∀ (s : String) (nd : FDCNode),
      (s, nd) ∈ initialStations (nodesDbOf batches) →
      ∃ x ∈ (buildNetwork gc batches).nodes, x.id = s := by
    intro s nd hmem
    refine ⟨nd, ?_, (hfdc _ hmem).2⟩
    show nd ∈ ((finalState gc batches).fdc).map (·.2)
    rw [hfd]
    exact List.mem_map.2 ⟨(s, nd), hmem, rfl⟩
  constructor
  · intro e he'
    obtain ⟨⟨nd1, h1⟩, ⟨nd2, h2⟩, _⟩ := he e he'
    exact ⟨tostn _ _ h1, tostn _ _ h2⟩
  · intro l hl sp hsp
    obtain ⟨nd, hmem⟩ := hlines l hl sp hsp
    exact tostn _ _ hmem

/-- C10 witness: the first stop of the first line of the two-route
input resolves to a station of the output. -/
theorem C10_referential_closure_witness :
    ∃ nd ∈ (buildNetwork gc0 edgeBatches).nodes, nd.id = stopDemo.stationId :=
  (C10_referential_closure gc0 edgeBatches).2 lineDemo (by decide) stopDemo (by decide)

end FdC
